import Mathlib

/-!
Verification of `fix_font_family_names.py`, a utility that normalizes the
family name stored in the naming records of a font container.

The fontTools library is an external collaborator of the program: the spec
treats the binary font parser and the text codecs as outside the component
boundary.  We embed the naming records as a tagged-variant record type (a
record stores either a Unicode string or platform-encoded raw bytes) and
parametrize every operation by a `Codec` bundling the byte decodings and
the per-record encoding that the library supplies.  Python string
operations used by the program (`in`, `replace`, `strip`, truthiness) are
embedded as executable Lean functions on code-point lists.
-/

set_option autoImplicit false

namespace FontFix

/-! ## Python string primitives -/

/-- Whitespace characters removed by the Python `str.strip()` method
(ASCII subset; the program only ever deals with ordinary spaces). -/
def pyWhitespace (c : Char) : Bool :=
  c = ' ' || c = '\t' || c = '\n' || c = '\r' || c = '\x0b' || c = '\x0c'

/-- Fuel-indexed worker for `pyReplace`.  Scans left to right; at each
position, if the (non-empty) pattern is a prefix it emits the replacement
and resumes after the matched text, exactly like Python `str.replace`. -/
def replaceAllFuel (pat repl : List Char) : Nat → List Char → List Char
  | 0, s => s
  | _ + 1, [] => []
  | fuel + 1, c :: t =>
    if pat ≠ [] ∧ pat.isPrefixOf (c :: t) then
      repl ++ replaceAllFuel pat repl fuel ((c :: t).drop pat.length)
    else
      c :: replaceAllFuel pat repl fuel t

/-- Embedding of the Python expression `s.replace(pat, repl)`: replace all
non-overlapping occurrences of `pat` in `s`, left to right. -/
def pyReplace (s pat repl : String) : String :=
  ⟨replaceAllFuel pat.toList repl.toList s.toList.length s.toList⟩

/-- Embedding of the Python expression `s.strip()`. -/
def pyStrip (s : String) : String :=
  ⟨((s.toList.dropWhile pyWhitespace).reverse.dropWhile pyWhitespace).reverse⟩

/-- Substring test on code-point lists (worker for `pyContains`). -/
def hasSubstr (pat : List Char) : List Char → Bool
  | [] => pat.isEmpty
  | c :: t => pat.isPrefixOf (c :: t) || hasSubstr pat t

/-- Embedding of the Python expression `pat in s` on strings. -/
def pyContains (s pat : String) : Bool :=
  hasSubstr pat.toList s.toList

/-- Python truthiness of an optional string: `None` and the empty string
are falsy, every other string is truthy. -/
def pyTruthy : Option String → Bool
  | none => false
  | some s => if s = "" then false else true

/-- Python f-string rendering of an optional string: `None` prints as the
four-letter word `None`. -/
def pyShowOpt : Option String → String
  | none => "None"
  | some s => s

/-! ## Data model: naming records and the codec boundary -/

/-- Stored value of a naming record: fontTools keeps a Unicode string for
records whose platform marks them Unicode-encoded, and raw bytes
otherwise (tagged-variant model from the design notes of the spec). -/
inductive RecValue : Type where
  | uni (s : String)
  | bytes (bs : List Nat)
  deriving DecidableEq, Repr

/-- A naming record of the font naming table. -/
structure NameRecord : Type where
  nameID : Nat
  platformID : Nat
  platEncID : Nat
  langID : Nat
  value : RecValue
  deriving DecidableEq, Repr

/-- The text-codec capabilities the program obtains from the external
fontTools library: `decode(...)` for the two byte decodings attempted on
non-Unicode records, and `name.encode(record.getEncoding())`, whose
encoding is determined by the record identifiers. -/
structure Codec : Type where
  decodeUtf8 : List Nat → Option String
  decodeLatin1 : List Nat → Option String
  encode : Nat → Nat → Nat → String → Option (List Nat)

/-! ## resolve: deriving the family name from the records -/

/-- One scan of the record list for a given nameID, as written in the two
scan loops of `fix_font_family_names`: on the first record with the wanted
nameID, a Unicode record yields its string (break); a bytes record is
decoded as utf-8, then latin-1 (break on success); if both decodings fail
the scan continues with the next record. -/
def resolveScan (c : Codec) (nid : Nat) : List NameRecord → Option String
  | [] => none
  | r :: rs =>
    if r.nameID = nid then
      match r.value with
      | RecValue.uni s => some s
      | RecValue.bytes bs =>
        match c.decodeUtf8 bs with
        | some s => some s
        | none =>
          match c.decodeLatin1 bs with
          | some s => some s
          | none => resolveScan c nid rs
    else
      resolveScan c nid rs

/-- The raw family-name derivation of `fix_font_family_names` (before the
weight-token cleanup): scan for nameID 16; if the result is falsy (Python
`if not family_name`), scan for nameID 1, keeping the nameID-16 result
when that second scan assigns nothing. -/
def resolveRaw (c : Codec) (recs : List NameRecord) : Option String :=
  let f16 := resolveScan c 16 recs
  if pyTruthy f16 then
    f16
  else
    match resolveScan c 1 recs with
    | some s => some s
    | none => f16

/-- Decoded value of a single record, as attempted by the scan loops. -/
def decodeRecord (c : Codec) (r : NameRecord) : Option String :=
  match r.value with
  | RecValue.uni s => some s
  | RecValue.bytes bs =>
    match c.decodeUtf8 bs with
    | some s => some s
    | none => c.decodeLatin1 bs

/-- First record of the given nameID whose value decodes, in native
enumeration order (declarative reformulation used to state claims). -/
def firstDecodable (c : Codec) (nid : Nat) (recs : List NameRecord) : Option String :=
  recs.findSome? fun r => if r.nameID = nid then decodeRecord c r else none

/-! ## strip_weight_tokens -/

/-- The fixed ordered token list of `fix_font_family_names`. -/
def weightTokens : List String :=
  ["Regular", "Bold", "Italic", "Medium", "Light", "Black",
   "SemiBold", "ExtraBold", "ExtraLight", "Thin"]

/-- One iteration of the cleanup loop: if the token occurs in the name,
remove every space-token and hyphen-token occurrence and strip the
result; otherwise leave the name alone. -/
def stripStep (n w : String) : String :=
  if pyContains n w then
    pyStrip (pyReplace (pyReplace n (" " ++ w) "") ("-" ++ w) "")
  else
    n

/-- The weight-token cleanup loop of `fix_font_family_names`. -/
def stripWeightTokens (name : String) : String :=
  weightTokens.foldl stripStep name

/-- The full family-name resolution of `fix_font_family_names`: a truthy
override is used verbatim; otherwise the raw derived name, cleaned by the
weight-token loop when it is truthy. -/
def resolveFamilyName (c : Codec) (recs : List NameRecord)
    (famOverride : Option String) : Option String :=
  if pyTruthy famOverride then
    famOverride
  else
    let fam := resolveRaw c recs
    if pyTruthy fam then some (stripWeightTokens (fam.getD "")) else fam

/-! ## apply: writing the resolved name into the records -/

/-- The body of the update loop for one record: records of nameID 1 or 16
are set to the resolved name (directly for Unicode records, through the
record encoding for bytes records, skipping the record when encoding
fails); all other records are left alone. -/
def updateRecord (c : Codec) (name : String) (r : NameRecord) : NameRecord :=
  if r.nameID = 1 ∨ r.nameID = 16 then
    match r.value with
    | RecValue.uni _ => { r with value := RecValue.uni name }
    | RecValue.bytes _ =>
      match c.encode r.platformID r.platEncID r.langID name with
      | some out => { r with value := RecValue.bytes out }
      | none => r
  else
    r

/-- The update loop of `fix_font_family_names` over the whole record
list. -/
def applyFamilyName (c : Codec) (name : String) (recs : List NameRecord) :
    List NameRecord :=
  recs.map (updateRecord c name)

/-! ## run: the whole pipeline -/

/-- Outcome of one invocation of `fix_font_family_names`.  `ok` carries
the record list handed to the save step and the returned family name;
`loadFailed` is raised before any record is touched or saved. -/
inductive RunOutcome : Type where
  | loadFailed (msg : String)
  | saveFailed (msg : String)
  | ok (saved : List NameRecord) (familyName : Option String)
  deriving DecidableEq, Repr

/-- The record list an outcome saved, if any. -/
def savedRecords : RunOutcome → Option (List NameRecord)
  | RunOutcome.ok saved _ => some saved
  | _ => none

/-- The pipeline of `fix_font_family_names`: load (modelled by the given
load result), resolve the family name, update the records when the name
is truthy, save (modelled by the given save function), and return the
name.  A load failure aborts before the records are read. -/
def run (c : Codec) (loadRes : Except String (List NameRecord))
    (saveRes : List NameRecord → Except String Unit)
    (famOverride : Option String) : RunOutcome :=
  match loadRes with
  | Except.error m => RunOutcome.loadFailed m
  | Except.ok recs =>
    let fam := resolveFamilyName c recs famOverride
    let newRecs :=
      if pyTruthy fam then applyFamilyName c (fam.getD "") recs else recs
    match saveRes newRecs with
    | Except.error m => RunOutcome.saveFailed m
    | Except.ok _ => RunOutcome.ok newRecs fam

/-! ## CLI wrapper -/

/-- The usage line printed by the `__main__` block. -/
def usageMsg : String :=
  "Usage: python fix_font_family_names.py <input_font> <output_font> [family_name_override]"

/-- The `__main__` block: given the full argument vector (program name
included), produce the exit code and the printed line. -/
def cli (c : Codec) (loadRes : Except String (List NameRecord))
    (saveRes : List NameRecord → Except String Unit)
    (argv : List String) : Nat × String :=
  if argv.length < 3 then
    (1, usageMsg)
  else
    match run c loadRes saveRes argv[3]? with
    | RunOutcome.loadFailed m => (1, "ERROR:" ++ m)
    | RunOutcome.saveFailed m => (1, "ERROR:" ++ m)
    | RunOutcome.ok _ fam => (0, "SUCCESS:" ++ pyShowOpt fam)

/-! ## Concrete instances used by witnesses and counterexamples -/

/-- A concrete codec: utf-8 is modelled as strict ASCII, latin-1 as the
total byte-to-code-point decoding, and every record encoding as ASCII. -/
def demoCodec : Codec where
  decodeUtf8 bs := if bs.all (· < 128) then some ⟨bs.map Char.ofNat⟩ else none
  decodeLatin1 bs := some ⟨bs.map Char.ofNat⟩
  encode _ _ _ s :=
    if s.toList.all (fun ch => ch.toNat < 128) then
      some (s.toList.map Char.toNat)
    else
      none

/-- A codec whose record encodings always fail, exercising the
encode-failure path of the update loop. -/
def noEncodeCodec : Codec where
  decodeUtf8 _ := none
  decodeLatin1 bs := some ⟨bs.map Char.ofNat⟩
  encode _ _ _ _ := none

/-- A save step that always succeeds. -/
def okSave : List NameRecord → Except String Unit := fun _ => Except.ok ()

/-- A record of the given nameID holds the candidate family name under
its own encoding scheme: Unicode records store the name itself, bytes
records store the encoding of the name determined by their identifiers.
This is the per-record reading of the invariant in the data-model section
of the spec. -/
def recordHoldsName (c : Codec) (n : String) (r : NameRecord) : Bool :=
  match r.value with
  | RecValue.uni s => s = n
  | RecValue.bytes bs =>
    c.encode r.platformID r.platEncID r.langID n = some bs

/-! ## Supporting lemmas -/

theorem pyTruthy_some_of_ne {s : String} (h : s ≠ "") :
    pyTruthy (some s) = true := by
  simp [pyTruthy, h]

/-- The per-nameID scan loop picks out the first record of that nameID
whose value decodes, skipping records of other nameIDs and records whose
bytes fail both decodings. -/
theorem resolveScan_eq_firstDecodable (c : Codec) (nid : Nat)
    (recs : List NameRecord) :
    resolveScan c nid recs = firstDecodable c nid recs := by
  induction recs with
  | nil => rfl
  | cons r rs ih =>
    by_cases hid : r.nameID = nid
    · cases hv : r.value with
      | uni s =>
        simp [resolveScan, firstDecodable, List.findSome?_cons, hid, hv,
          decodeRecord]
      | bytes bs =>
        cases hu : c.decodeUtf8 bs with
        | some s =>
          simp [resolveScan, firstDecodable, List.findSome?_cons, hid, hv,
            hu, decodeRecord]
        | none =>
          cases hl : c.decodeLatin1 bs with
          | some s =>
            simp [resolveScan, firstDecodable, List.findSome?_cons, hid, hv,
              hu, hl, decodeRecord]
          | none =>
            simpa [resolveScan, firstDecodable, List.findSome?_cons, hid, hv,
              hu, hl, decodeRecord] using ih
    · simpa [resolveScan, firstDecodable, List.findSome?_cons, hid] using ih

/-- Forward evaluation of `run` when the resolved name is truthy. -/
theorem run_ok_of (c : Codec) (recs : List NameRecord)
    (saveRes : List NameRecord → Except String Unit) (ov : Option String)
    (n : String)
    (hres : resolveFamilyName c recs ov = some n) (hn : n ≠ "")
    (hsave : saveRes (applyFamilyName c n recs) = Except.ok ()) :
    run c (Except.ok recs) saveRes ov
      = RunOutcome.ok (applyFamilyName c n recs) (some n) := by
  simp only [run, hres, pyTruthy_some_of_ne hn, if_true, Option.getD_some,
    hsave]

/-- Forward evaluation of `run` when the resolved name is falsy. -/
theorem run_skip_of (c : Codec) (recs : List NameRecord)
    (saveRes : List NameRecord → Except String Unit) (ov : Option String)
    (hres : pyTruthy (resolveFamilyName c recs ov) = false)
    (hsave : saveRes recs = Except.ok ()) :
    run c (Except.ok recs) saveRes ov
      = RunOutcome.ok recs (resolveFamilyName c recs ov) := by
  simp only [run, hres, if_false, Bool.false_eq_true, hsave]

/-- Inversion of a successful `run`: the returned name is the resolved
one, and the saved record list is the updated list (or the original when
the name is falsy), with the save step succeeding on it. -/
theorem run_ok_elim {c : Codec} {recs : List NameRecord}
    {saveRes : List NameRecord → Except String Unit} {ov : Option String}
    {saved : List NameRecord} {fam : Option String}
    (h : run c (Except.ok recs) saveRes ov = RunOutcome.ok saved fam) :
    fam = resolveFamilyName c recs ov ∧
    saved = (if pyTruthy fam then applyFamilyName c (fam.getD "") recs
             else recs) ∧
    saveRes saved = Except.ok () := by
  simp only [run] at h
  split at h
  · cases h
  · rename_i u heq
    cases h
    cases u
    exact ⟨rfl, rfl, heq⟩

/-- Updating a record twice with the same name is the same as once. -/
theorem updateRecord_idem (c : Codec) (n : String) (r : NameRecord) :
    updateRecord c n (updateRecord c n r) = updateRecord c n r := by
  unfold updateRecord
  by_cases hid : r.nameID = 1 ∨ r.nameID = 16
  · cases hv : r.value with
    | uni s => simp [hv, hid]
    | bytes bs =>
      cases he : c.encode r.platformID r.platEncID r.langID n with
      | some out => simp [hv, hid, he]
      | none => simp [hv, hid, he]
  · simp [hid]

/-- Characterization of the update loop on a Unicode record of a
relevant nameID. -/
theorem updateRecord_uni_char (c : Codec) (n : String) (r : NameRecord)
    (s : String) (hid : r.nameID = 1 ∨ r.nameID = 16)
    (hv : r.value = RecValue.uni s) :
    updateRecord c n r = { r with value := RecValue.uni n } := by
  unfold updateRecord
  rw [if_pos hid, hv]

/-- Characterization of the update loop on a bytes record whose encoding
succeeds. -/
theorem updateRecord_bytes_some (c : Codec) (n : String) (r : NameRecord)
    (bs out : List Nat) (hid : r.nameID = 1 ∨ r.nameID = 16)
    (hv : r.value = RecValue.bytes bs)
    (he : c.encode r.platformID r.platEncID r.langID n = some out) :
    updateRecord c n r = { r with value := RecValue.bytes out } := by
  unfold updateRecord
  rw [if_pos hid, hv, he]

/-- Characterization of the update loop on a bytes record whose encoding
fails: the record is left unmodified. -/
theorem updateRecord_bytes_none (c : Codec) (n : String) (r : NameRecord)
    (bs : List Nat) (hid : r.nameID = 1 ∨ r.nameID = 16)
    (hv : r.value = RecValue.bytes bs)
    (he : c.encode r.platformID r.platEncID r.langID n = none) :
    updateRecord c n r = r := by
  unfold updateRecord
  rw [if_pos hid, hv, he]

/-- The update loop ignores records of other nameIDs. -/
theorem updateRecord_other_id (c : Codec) (n : String) (r : NameRecord)
    (h1 : r.nameID ≠ 1) (h16 : r.nameID ≠ 16) :
    updateRecord c n r = r := by
  unfold updateRecord
  rw [if_neg]
  rintro (h | h) <;> [exact h1 h; exact h16 h]

/-! ## Claim theorems -/

/-- C1 counterexample: a nameID-16 record that decodes to the empty
string is decodable, yet the scan result is falsy, so the code goes on to
consult the nameID-1 records; the claim says the nameID-1 records are
ignored whenever some nameID-16 record is decodable and that the decoded
value of the first decodable nameID-16 record (here the empty string) is
returned. -/
theorem resolveRaw_empty16_consults_nameID1_cex :
    resolveRaw demoCodec
        [⟨16, 0, 3, 0, RecValue.uni ""⟩, ⟨1, 0, 3, 0, RecValue.uni "Foo"⟩]
      = some "Foo" ∧
    (some "Foo" : Option String) ≠ some "" := by
  constructor
  · rfl
  · decide

/-- C1 (amended): with no override, resolve scans the records in native
enumeration order and returns the decoded value of the first nameID-16
record that decodes (Unicode records decode directly, bytes records try
utf-8 then latin-1, records failing both are skipped) whenever that value
is non-empty; if the nameID-16 scan yields nothing or the empty string,
the same scan is repeated for nameID 1, and the empty nameID-16 value is
kept only when the nameID-1 scan also yields nothing; nameID-1 records
are ignored whenever the first decodable nameID-16 record decodes to a
non-empty value. -/
theorem resolveRaw_scan_order (c : Codec) (recs : List NameRecord) :
    resolveRaw c recs =
      (if pyTruthy (firstDecodable c 16 recs) then
        firstDecodable c 16 recs
      else
        match firstDecodable c 1 recs with
        | some t => some t
        | none => firstDecodable c 16 recs) := by
  unfold resolveRaw
  rw [resolveScan_eq_firstDecodable c 16 recs,
    resolveScan_eq_firstDecodable c 1 recs]

/-- C2: the cleanup iterates the fixed token list in order; for each
token occurring in the name it removes every space-token and every
hyphen-token occurrence and trims surrounding whitespace, leaving bare
occurrences without a preceding separator untouched; the three examples
of the spec hold. -/
theorem stripWeightTokens_spec :
    (∀ name : String, stripWeightTokens name =
      List.foldl
        (fun n w =>
          if pyContains n w then
            pyStrip (pyReplace (pyReplace n (" " ++ w) "") ("-" ++ w) "")
          else n)
        name
        ["Regular", "Bold", "Italic", "Medium", "Light", "Black",
         "SemiBold", "ExtraBold", "ExtraLight", "Thin"]) ∧
    stripWeightTokens " Aria Sans Bold" = "Aria Sans" ∧
    stripWeightTokens "ArialBold" = "ArialBold" ∧
    pyContains "ArialBold" "Bold" = true ∧
    stripWeightTokens "Aria-ExtraBold" = "Aria" := by
  exact ⟨fun name => rfl, by decide, by decide, by decide, by decide⟩

/-- C8: when the load step fails, `run` reports the load failure and no
save takes place, whatever the codec, the save behavior and the override
are: the outcome is independent of all of them and carries no saved
records. -/
theorem run_load_failure_aborts (c : Codec)
    (saveRes : List NameRecord → Except String Unit) (ov : Option String)
    (m : String) :
    run c (Except.error m) saveRes ov = RunOutcome.loadFailed m ∧
    savedRecords (run c (Except.error m) saveRes ov) = none := by
  exact ⟨rfl, rfl⟩

/-- C3 counterexample: a successful run with resolved name `New` whose
single nameID-1 bytes record cannot encode the name leaves that record
with its original bytes, so not every nameID-1 or nameID-16 record holds
the resolved name under its own encoding scheme. -/
theorem run_invariant_encode_failure_cex :
    run noEncodeCodec (Except.ok [⟨1, 3, 1, 0, RecValue.bytes [88]⟩])
        okSave (some "New")
      = RunOutcome.ok [⟨1, 3, 1, 0, RecValue.bytes [88]⟩] (some "New") ∧
    recordHoldsName noEncodeCodec "New" ⟨1, 3, 1, 0, RecValue.bytes [88]⟩
      = false := by
  exact ⟨rfl, rfl⟩

/-- C3 (amended): after a successful run with a present resolved name,
the saved record list is the original list with every nameID-1 or
nameID-16 record rewritten to the resolved name: Unicode records hold the
name directly, bytes records whose declared encoding accepts the name
hold its re-encoding, and bytes records whose encoding fails keep their
original value. -/
theorem run_success_record_invariant (c : Codec) (recs : List NameRecord)
    (saveRes : List NameRecord → Except String Unit) (ov : Option String)
    (saved : List NameRecord) (n : String)
    (h : run c (Except.ok recs) saveRes ov = RunOutcome.ok saved (some n))
    (hn : n ≠ "") :
    saved = applyFamilyName c n recs ∧
    ∀ r ∈ recs, (r.nameID = 1 ∨ r.nameID = 16) →
      ((∀ s, r.value = RecValue.uni s →
          updateRecord c n r = { r with value := RecValue.uni n }) ∧
       (∀ bs out, r.value = RecValue.bytes bs →
          c.encode r.platformID r.platEncID r.langID n = some out →
          updateRecord c n r = { r with value := RecValue.bytes out }) ∧
       (∀ bs, r.value = RecValue.bytes bs →
          c.encode r.platformID r.platEncID r.langID n = none →
          updateRecord c n r = r)) := by
  obtain ⟨_, hsaved, _⟩ := run_ok_elim h
  simp only [pyTruthy_some_of_ne hn, if_true, Option.getD_some] at hsaved
  refine ⟨hsaved, fun r _ hid => ⟨?_, ?_, ?_⟩⟩
  · exact fun s hv => updateRecord_uni_char c n r s hid hv
  · exact fun bs out hv he => updateRecord_bytes_some c n r bs out hid hv he
  · exact fun bs hv he => updateRecord_bytes_none c n r bs hid hv he

/-- C3 witness at a concrete input. -/
theorem run_success_record_invariant_witness :
    run demoCodec (Except.ok [⟨1, 3, 1, 0, RecValue.uni "Old"⟩])
        okSave (some "New")
      = RunOutcome.ok [⟨1, 3, 1, 0, RecValue.uni "New"⟩] (some "New") ∧
    ("New" : String) ≠ "" ∧
    ([⟨1, 3, 1, 0, RecValue.uni "New"⟩] : List NameRecord)
      = applyFamilyName demoCodec "New" [⟨1, 3, 1, 0, RecValue.uni "Old"⟩] :=
  ⟨by decide, by decide,
    (run_success_record_invariant demoCodec
      [⟨1, 3, 1, 0, RecValue.uni "Old"⟩] okSave (some "New")
      [⟨1, 3, 1, 0, RecValue.uni "New"⟩] "New" (by decide) (by decide)).1⟩

/-- C4: a non-empty override is resolved verbatim (no weight-token
stripping), the run returns it and saves the records updated with exactly
the override: Unicode records of nameID 1 or 16 are set to the override
itself and bytes records to its re-encoding, independently of their
original content. -/
theorem override_used_verbatim (c : Codec) (recs : List NameRecord)
    (saveRes : List NameRecord → Except String Unit) (o : String)
    (ho : o ≠ "")
    (hsave : saveRes (applyFamilyName c o recs) = Except.ok ()) :
    resolveFamilyName c recs (some o) = some o ∧
    run c (Except.ok recs) saveRes (some o)
      = RunOutcome.ok (applyFamilyName c o recs) (some o) ∧
    (∀ r : NameRecord, (r.nameID = 1 ∨ r.nameID = 16) →
      (∀ s, r.value = RecValue.uni s →
        updateRecord c o r = { r with value := RecValue.uni o }) ∧
      (∀ bs out, r.value = RecValue.bytes bs →
        c.encode r.platformID r.platEncID r.langID o = some out →
        updateRecord c o r = { r with value := RecValue.bytes out })) := by
  have hres : resolveFamilyName c recs (some o) = some o := by
    unfold resolveFamilyName
    simp [pyTruthy_some_of_ne ho]
  refine ⟨hres, run_ok_of c recs saveRes (some o) o hres ho hsave,
    fun r hid => ⟨?_, ?_⟩⟩
  · exact fun s hv => updateRecord_uni_char c o r s hid hv
  · exact fun bs out hv he => updateRecord_bytes_some c o r bs out hid hv he

/-- C4 witness: the override contains a weight token with separator and
is still used unstripped. -/
theorem override_used_verbatim_witness :
    ("My Bold" : String) ≠ "" ∧
    resolveFamilyName demoCodec [⟨1, 0, 3, 0, RecValue.uni "Old"⟩]
        (some "My Bold") = some "My Bold" ∧
    run demoCodec (Except.ok [⟨1, 0, 3, 0, RecValue.uni "Old"⟩]) okSave
        (some "My Bold")
      = RunOutcome.ok
          (applyFamilyName demoCodec "My Bold"
            [⟨1, 0, 3, 0, RecValue.uni "Old"⟩]) (some "My Bold") := by
  have h := override_used_verbatim demoCodec
    [⟨1, 0, 3, 0, RecValue.uni "Old"⟩] okSave "My Bold" (by decide) rfl
  exact ⟨by decide, h.1, h.2.1⟩

/-- C5: when the resolved name is present and one bytes record of a
relevant nameID cannot encode it, the run still completes successfully
saving the updated list, that specific record is left unmodified, and
every other relevant record whose value is Unicode or whose encoding
succeeds is still updated. -/
theorem encode_failure_tolerated (c : Codec) (recs : List NameRecord)
    (saveRes : List NameRecord → Except String Unit) (ov : Option String)
    (n : String) (r : NameRecord) (bs : List Nat)
    (hres : resolveFamilyName c recs ov = some n) (hn : n ≠ "")
    (hsave : saveRes (applyFamilyName c n recs) = Except.ok ())
    (_hr : r ∈ recs) (hid : r.nameID = 1 ∨ r.nameID = 16)
    (hv : r.value = RecValue.bytes bs)
    (henc : c.encode r.platformID r.platEncID r.langID n = none) :
    run c (Except.ok recs) saveRes ov
      = RunOutcome.ok (applyFamilyName c n recs) (some n) ∧
    updateRecord c n r = r ∧
    (∀ r' ∈ recs, (r'.nameID = 1 ∨ r'.nameID = 16) →
      (∀ s, r'.value = RecValue.uni s →
        updateRecord c n r' = { r' with value := RecValue.uni n }) ∧
      (∀ bs' out, r'.value = RecValue.bytes bs' →
        c.encode r'.platformID r'.platEncID r'.langID n = some out →
        updateRecord c n r' = { r' with value := RecValue.bytes out })) := by
  refine ⟨run_ok_of c recs saveRes ov n hres hn hsave,
    updateRecord_bytes_none c n r bs hid hv henc,
    fun r' _ hid' => ⟨?_, ?_⟩⟩
  · exact fun s hv' => updateRecord_uni_char c n r' s hid' hv'
  · exact fun bs' out hv' he' =>
      updateRecord_bytes_some c n r' bs' out hid' hv' he'

/-- C5 witness: two records, the bytes one skipped, the Unicode one
updated, run successful. -/
theorem encode_failure_tolerated_witness :
    resolveFamilyName noEncodeCodec
        [⟨16, 3, 1, 0, RecValue.bytes [88]⟩, ⟨1, 0, 3, 0, RecValue.uni "Old"⟩]
        (some "New") = some "New" ∧
    run noEncodeCodec
        (Except.ok
          [⟨16, 3, 1, 0, RecValue.bytes [88]⟩,
           ⟨1, 0, 3, 0, RecValue.uni "Old"⟩])
        okSave (some "New")
      = RunOutcome.ok
          (applyFamilyName noEncodeCodec "New"
            [⟨16, 3, 1, 0, RecValue.bytes [88]⟩,
             ⟨1, 0, 3, 0, RecValue.uni "Old"⟩]) (some "New") ∧
    updateRecord noEncodeCodec "New" ⟨16, 3, 1, 0, RecValue.bytes [88]⟩
      = ⟨16, 3, 1, 0, RecValue.bytes [88]⟩ := by
  have h := encode_failure_tolerated noEncodeCodec
    [⟨16, 3, 1, 0, RecValue.bytes [88]⟩, ⟨1, 0, 3, 0, RecValue.uni "Old"⟩]
    okSave (some "New") "New" ⟨16, 3, 1, 0, RecValue.bytes [88]⟩ [88]
    (by decide) (by decide) rfl (by decide) (by decide) (by decide)
    (by decide)
  exact ⟨by decide, h.1, h.2.1⟩

/-- C6: records of a nameID other than 1 and 16 are never modified by the
update loop, and when the raw resolution finds nothing and there is no
override, the run modifies no record at all, still saves the container,
and returns the absent name as a success. -/
theorem frame_and_absent_name (c : Codec) (recs : List NameRecord)
    (saveRes : List NameRecord → Except String Unit) (n : String) :
    (∀ r : NameRecord, r.nameID ≠ 1 → r.nameID ≠ 16 →
      updateRecord c n r = r) ∧
    (resolveRaw c recs = none → saveRes recs = Except.ok () →
      run c (Except.ok recs) saveRes none = RunOutcome.ok recs none) := by
  refine ⟨fun r h1 h16 => updateRecord_other_id c n r h1 h16,
    fun hres hsave => ?_⟩
  have hfam : resolveFamilyName c recs none = none := by
    unfold resolveFamilyName
    rw [hres]
    rfl
  have := run_skip_of c recs saveRes none (by rw [hfam]; rfl) hsave
  rw [hfam] at this
  exact this

/-- C6 witness at a concrete input. -/
theorem frame_and_absent_name_witness :
    updateRecord demoCodec "X" ⟨7, 0, 0, 0, RecValue.uni "Q"⟩
      = ⟨7, 0, 0, 0, RecValue.uni "Q"⟩ ∧
    run demoCodec (Except.ok [⟨7, 0, 0, 0, RecValue.uni "Q"⟩]) okSave none
      = RunOutcome.ok [⟨7, 0, 0, 0, RecValue.uni "Q"⟩] none := by
  have h := frame_and_absent_name demoCodec
    [⟨7, 0, 0, 0, RecValue.uni "Q"⟩] okSave "X"
  exact ⟨h.1 ⟨7, 0, 0, 0, RecValue.uni "Q"⟩ (by decide) (by decide),
    h.2 (by decide) rfl⟩

/-- C7 counterexample: with an absent override the pipeline is not
idempotent, because the weight-token cleanup is not: a first run turns
the nameID-16 value `A Bo-Thinld` into `A Bold`, and a second run on its
own output strips again to `A`, so the naming-record content of the two
runs differs. -/
theorem run_not_idempotent_cex :
    run demoCodec (Except.ok [⟨16, 0, 3, 0, RecValue.uni "A Bo-Thinld"⟩])
        okSave none
      = RunOutcome.ok [⟨16, 0, 3, 0, RecValue.uni "A Bold"⟩]
          (some "A Bold") ∧
    run demoCodec (Except.ok [⟨16, 0, 3, 0, RecValue.uni "A Bold"⟩])
        okSave none
      = RunOutcome.ok [⟨16, 0, 3, 0, RecValue.uni "A"⟩] (some "A") ∧
    (RecValue.uni "A" : RecValue) ≠ RecValue.uni "A Bold" := by
  exact ⟨by decide, by decide, by decide⟩

/-- C7 (amended): with a fixed non-empty override, running the pipeline a
second time on the first output yields exactly the same record list (in
particular byte-identical nameID-1 and nameID-16 content) and the same
resolved name. -/
theorem run_idempotent_with_override (c : Codec)
    (recs saved : List NameRecord)
    (saveRes : List NameRecord → Except String Unit) (o : String)
    (ho : o ≠ "")
    (h1 : run c (Except.ok recs) saveRes (some o)
      = RunOutcome.ok saved (some o)) :
    run c (Except.ok saved) saveRes (some o)
      = RunOutcome.ok saved (some o) := by
  obtain ⟨_, hsaved, hsave⟩ := run_ok_elim h1
  simp only [pyTruthy_some_of_ne ho, if_true, Option.getD_some] at hsaved
  have hres2 : resolveFamilyName c saved (some o) = some o := by
    unfold resolveFamilyName
    simp [pyTruthy_some_of_ne ho]
  have happ : applyFamilyName c o saved = saved := by
    rw [hsaved]
    unfold applyFamilyName
    rw [List.map_map]
    simp only [Function.comp_def, updateRecord_idem]
  have h2 := run_ok_of c saved saveRes (some o) o hres2 ho
    (by rw [happ]; exact hsave)
  rw [happ] at h2
  exact h2

/-- C7 witness at a concrete input. -/
theorem run_idempotent_with_override_witness :
    run demoCodec (Except.ok [⟨1, 0, 3, 0, RecValue.uni "Aria Bold"⟩])
        okSave (some "MyFam")
      = RunOutcome.ok [⟨1, 0, 3, 0, RecValue.uni "MyFam"⟩] (some "MyFam") ∧
    run demoCodec (Except.ok [⟨1, 0, 3, 0, RecValue.uni "MyFam"⟩])
        okSave (some "MyFam")
      = RunOutcome.ok [⟨1, 0, 3, 0, RecValue.uni "MyFam"⟩] (some "MyFam") :=
  ⟨by decide,
    run_idempotent_with_override demoCodec
      [⟨1, 0, 3, 0, RecValue.uni "Aria Bold"⟩]
      [⟨1, 0, 3, 0, RecValue.uni "MyFam"⟩] okSave "MyFam" (by decide)
      (by decide)⟩

/-- C9 counterexample: a successful run that resolves no family name
makes the CLI print `SUCCESS:None` (the Python rendering of `None`), not
`SUCCESS:` with nothing after the colon as the claim states. -/
theorem cli_success_none_cex :
    cli demoCodec (Except.ok []) okSave ["prog", "in.ttf", "out.ttf"]
      = (0, "SUCCESS:None") ∧
    ("SUCCESS:None" : String) ≠ "SUCCESS:" := by
  exact ⟨by decide, by decide⟩

/-- C9 (amended): with fewer than two positional arguments the CLI exits
with code 1 and the usage message; on a successful run it exits with code
0 printing `SUCCESS:` followed by the resolved name, where an absent name
is rendered as the string `None`; on a load or save failure it exits with
code 1 printing `ERROR:` followed by the message. -/
theorem cli_output_spec (c : Codec)
    (loadRes : Except String (List NameRecord))
    (saveRes : List NameRecord → Except String Unit)
    (argv : List String) :
    (argv.length < 3 → cli c loadRes saveRes argv = (1, usageMsg)) ∧
    (∀ saved fam, 3 ≤ argv.length →
      run c loadRes saveRes argv[3]? = RunOutcome.ok saved fam →
      cli c loadRes saveRes argv = (0, "SUCCESS:" ++ pyShowOpt fam)) ∧
    (∀ m, 3 ≤ argv.length →
      run c loadRes saveRes argv[3]? = RunOutcome.loadFailed m →
      cli c loadRes saveRes argv = (1, "ERROR:" ++ m)) ∧
    (∀ m, 3 ≤ argv.length →
      run c loadRes saveRes argv[3]? = RunOutcome.saveFailed m →
      cli c loadRes saveRes argv = (1, "ERROR:" ++ m)) := by
  refine ⟨fun h => ?_, fun saved fam h3 hr => ?_, fun m h3 hr => ?_,
    fun m h3 hr => ?_⟩
  · unfold cli
    rw [if_pos h]
  all_goals
    unfold cli
    rw [if_neg (Nat.not_lt.mpr h3), hr]

/-- C9 witness at concrete inputs. -/
theorem cli_output_spec_witness :
    cli demoCodec (Except.ok []) okSave ["prog"] = (1, usageMsg) ∧
    run demoCodec (Except.ok []) okSave (["prog", "a", "b"])[3]?
      = RunOutcome.ok [] none ∧
    cli demoCodec (Except.ok []) okSave ["prog", "a", "b"]
      = (0, "SUCCESS:" ++ pyShowOpt none) :=
  ⟨(cli_output_spec demoCodec (Except.ok []) okSave ["prog"]).1 (by decide),
   by decide,
   (cli_output_spec demoCodec (Except.ok []) okSave ["prog", "a", "b"]).2.1
     [] none (by decide) (by decide)⟩

/-- C10: when there is no override and the raw derived name strips to the
empty string, the run treats the name as absent: no record is updated,
the original records are still saved, and the empty string is returned as
a successful result. -/
theorem stripped_empty_name_treated_absent (c : Codec)
    (recs : List NameRecord)
    (saveRes : List NameRecord → Except String Unit) (raw : String)
    (hres : resolveRaw c recs = some raw)
    (hstrip : stripWeightTokens raw = "")
    (hsave : saveRes recs = Except.ok ()) :
    run c (Except.ok recs) saveRes none = RunOutcome.ok recs (some "") := by
  have hfam : resolveFamilyName c recs none = some "" := by
    unfold resolveFamilyName
    rw [hres]
    by_cases hraw : raw = ""
    · subst hraw
      rfl
    · simp [pyTruthy, hraw, hstrip]
  have := run_skip_of c recs saveRes none (by rw [hfam]; rfl) hsave
  rw [hfam] at this
  exact this

/-- C10 witness at a concrete input. -/
theorem stripped_empty_name_treated_absent_witness :
    resolveRaw demoCodec [⟨16, 0, 3, 0, RecValue.uni " Bold"⟩]
      = some " Bold" ∧
    stripWeightTokens " Bold" = "" ∧
    run demoCodec (Except.ok [⟨16, 0, 3, 0, RecValue.uni " Bold"⟩])
        okSave none
      = RunOutcome.ok [⟨16, 0, 3, 0, RecValue.uni " Bold"⟩] (some "") :=
  ⟨by decide, by decide,
    stripped_empty_name_treated_absent demoCodec
      [⟨16, 0, 3, 0, RecValue.uni " Bold"⟩] okSave " Bold" (by decide)
      (by decide) rfl⟩

end FontFix
